import Mathlib

/-!
Verification of the NZM_CMD actuation layer (src/hardware.rs, src/main.rs).

The Rust code is shallowly embedded: byte values are `Nat` (with explicit
`% 256` / `% 65536` where the Rust types are `u8` / `u16`), signed machine
integers are `Int` (the `i32` arithmetic in `mouse_move` never overflows,
because every accumulator update moves the value towards zero), a wire frame
is a `List Nat` of byte values, and each `HardwareDriver` method is a pure
function from its arguments to the list of frames it writes to the serial
port, in emission order.
-/

namespace NZM

/-- Frame head byte, `FRAME_HEAD` in src/hardware.rs. -/
def FRAME_HEAD : Nat := 0xAA

/-- Frame tail byte, `FRAME_TAIL` in src/hardware.rs. -/
def FRAME_TAIL : Nat := 0x55

/-- Rust `enum EventType` of src/hardware.rs. -/
inductive EventType where
  | Keyboard
  | MouseRel
  | MouseAbs
  | System
deriving DecidableEq

/-- Byte discriminant of `EventType` (it is `repr(u8)` in the source). -/
def EventType.toByte : EventType → Nat
  | .Keyboard => 0x01
  | .MouseRel => 0x02
  | .MouseAbs => 0x03
  | .System => 0x04

/-- Fixed settle sleep performed after each frame write:
`thread::sleep(Duration::from_millis(4))` at the end of `send_raw`. -/
def SETTLE_MS : Nat := 4

/-- The 11-byte frame assembled by `HardwareDriver::send_raw`: head byte,
event-type byte, the 6 payload bytes, `delay_ms` as a little-endian `u16`
(`write_u16::<LittleEndian>`), tail byte. `delay_ms` is a `u16`, so its two
bytes are `delay_ms % 256` and `delay_ms / 256 % 256`. -/
def send_raw (et : EventType) (b : List Nat) (delay_ms : Nat) : List Nat :=
  [FRAME_HEAD, et.toByte] ++ b ++ [delay_ms % 256, delay_ms / 256 % 256, FRAME_TAIL]

/-- Frames of `InputDriver::heartbeat` for `HardwareDriver`: one system frame
with `b[0] = SystemCmd::Heartbeat as u8 = 0xFF`. -/
def heartbeat : List (List Nat) :=
  [send_raw .System [0xFF, 0, 0, 0, 0, 0] 0]

/-- Frames of `InputDriver::switch_identity` for `HardwareDriver`: one system
frame with `b[0] = SystemCmd::SetId as u8 = 0x10`, `b[1] = index`. -/
def switch_identity (index : Nat) : List (List Nat) :=
  [send_raw .System [0x10, index % 256, 0, 0, 0, 0] 0]

/-- Frames of `HardwareDriver::key_down(keycode, modifier)`: one keyboard
frame with payload `[keycode, 0x00, modifier, 0, 0, 0]`. Arguments are `u8`,
hence the `% 256` normalisation. -/
def hw_key_down (keycode modifier : Nat) : List (List Nat) :=
  [send_raw .Keyboard [keycode % 256, 0x00, modifier % 256, 0, 0, 0] 0]

/-- Frames of `HardwareDriver::key_up()`: one keyboard frame with payload
`[0, 0x80, 0, 0, 0, 0]`. -/
def hw_key_up : List (List Nat) :=
  [send_raw .Keyboard [0, 0x80, 0, 0, 0, 0] 0]

/-- Frames of `HardwareDriver::mouse_down(left, right)`: one mouse-relative
frame whose payload byte 0 is the button mask (bit 0 = left, bit 1 =
right). -/
def hw_mouse_down (left right : Bool) : List (List Nat) :=
  let mask := (if left then 0x01 else 0) + (if right then 0x02 else 0)
  [send_raw .MouseRel [mask, 0, 0, 0, 0, 0] 0]

/-- Frames of `HardwareDriver::mouse_up()`: one all-zero-payload
mouse-relative frame. -/
def hw_mouse_up : List (List Nat) :=
  [send_raw .MouseRel [0, 0, 0, 0, 0, 0] 0]

/-- Per-iteration step of the `mouse_move` fragmentation loop:
`if cur > 0 then cur.min(127) else cur.max(-127)`. -/
def stepOf (cur : Int) : Int := if cur > 0 then min cur 127 else max cur (-127)

/-- The `(step_x, step_y)` pairs produced by the
`while cur_dx != 0 || cur_dy != 0` fragmentation loop of
`HardwareDriver::mouse_move`, in emission order. Each pair is carried by one
mouse-relative motion frame. -/
def mouseMoveSteps (cur_dx cur_dy : Int) : List (Int × Int) :=
  if _h : cur_dx = 0 ∧ cur_dy = 0 then []
  else (stepOf cur_dx, stepOf cur_dy) ::
    mouseMoveSteps (cur_dx - stepOf cur_dx) (cur_dy - stepOf cur_dy)
termination_by cur_dx.natAbs + cur_dy.natAbs
decreasing_by unfold stepOf; split_ifs <;> omega

/-- Little-endian bytes of `(v as i16).to_le_bytes()`. -/
def i16le (v : Int) : List Nat :=
  [(v.emod 65536).toNat % 256, (v.emod 65536).toNat / 256]

/-- Byte value of `wheel as u8` for an `i8` wheel argument. -/
def i8u8 (w : Int) : Nat := (w.emod 256).toNat

/-- All frames emitted by `HardwareDriver::mouse_move(dx, dy, wheel)`, in
order: one wheel frame `[0, wheel as u8, 0, 0, 0, 0]` when `wheel != 0`,
then one motion frame `[0, 0, bx[0], bx[1], by[0], by[1]]` per fragmentation
step. -/
def mouse_move (dx dy wheel : Int) : List (List Nat) :=
  (if wheel ≠ 0 then [send_raw .MouseRel [0, i8u8 wheel, 0, 0, 0, 0] 0] else [])
    ++ (mouseMoveSteps dx dy).map (fun s =>
        send_raw .MouseRel ([0, 0] ++ i16le s.1 ++ i16le s.2) 0)

/-- Ceiling division `(n + 126) / 127`: the number of 127-bounded chunks
needed to cover a magnitude of `n`. -/
def chunks (n : Nat) : Nat := (n + 126) / 127

/-- Rust `u16::clamp(self, lo, hi)`: `min (max self lo) hi`. -/
def clampU16 (v lo hi : Nat) : Nat := min (max v lo) hi

/-- Exact-integer approximation of the `mouse_abs` scaling
`((x as f32 / screen_w as f32) * 32767.0) as u16`: the product computed in
exact rational arithmetic, truncated toward zero, saturated at 65535. The
program computes in `f32`, whose double rounding can differ from this by one
unit (the bit-faithful model is `absScaleF32` below); the clamp-range
theorem that uses this definition holds for every possible pre-clamp value,
so it is insensitive to the difference. -/
def absScale (x screen_w : Nat) : Nat := min (x * 32767 / screen_w) 65535

/-- Round `a / b` to the nearest integer, ties to the even integer — the
IEEE-754 rounding direction (round to nearest, ties to even) applied to an
exact nonnegative quotient. -/
def roundHEN (a b : Nat) : Nat :=
  let q := a / b
  let r := a % b
  if 2 * r < b then q
  else if b < 2 * r then q + 1
  else if q % 2 = 0 then q else q + 1

/-- Largest `k < 63` with `2 ^ k ≤ v`: the floor of the base-2 logarithm of
a positive integer below `2 ^ 63`, computed structurally. -/
def floorLog2Nat (v : Nat) : Nat :=
  ((List.range 63).filter (fun k => 2 ^ k ≤ v)).foldl max 0

/-- Floor of the base-2 logarithm of the fraction `x / w` for positive
`x, w ≤ 65535`, computed structurally by cross-multiplication over the
exponent range `[-40, 40]` (the actual range here is `[-17, 16]`). -/
def floorLog2Frac (x w : Nat) : Int :=
  ((((List.range 81).filter (fun i => w * 2 ^ i ≤ x * 2 ^ 40)).foldl max 0 : Nat)
    : Int) - 40

/-- Bit-faithful model of the `mouse_abs` scaling
`((x as f32 / screen_w as f32) * 32767.0) as u16` for `u16` arguments. The
`u16` values convert to `f32` exactly (they are below `2 ^ 24`). The
division result is the IEEE-754 binary32 round-to-nearest-even value of
`x / w`: its mantissa `m1` is the 24-bit ties-to-even rounding of
`x / w` scaled into `[2 ^ 23, 2 ^ 24)`, held with the dyadic scale `s1`, so
the `f32` quotient is exactly `m1 / 2 ^ s1`. The multiplication by the
exactly representable constant `32767.0` rounds `m1 * 32767 / 2 ^ s1` the
same way to mantissa `m2` at scale `t - s1`. The `as u16` cast truncates
toward zero and saturates: `0` for `NaN` (`x = w = 0`) and `65535` for
positive infinity (`x > 0, w = 0`). All intermediate values lie in the
binary32 normal range, so no subnormal or overflow cases arise. -/
def absScaleF32 (x screen_w : Nat) : Nat :=
  if x = 0 then 0
  else if screen_w = 0 then 65535
  else
    let e0 := floorLog2Frac x screen_w
    let s1 := (23 - e0).toNat
    let m1 := roundHEN (x * 2 ^ s1) screen_w
    let v := m1 * 32767
    let t := floorLog2Nat v - 23
    let m2 := roundHEN v (2 ^ t)
    if s1 ≤ t then min (m2 * 2 ^ (t - s1)) 65535
    else min (m2 / 2 ^ (s1 - t)) 65535

/-- Frames of `HardwareDriver::mouse_abs(x, y)` for a driver with screen
size `(screen_w, screen_h)`: scale both coordinates into the 15-bit space
with the `f32` computation modelled by `absScaleF32`, clamp inward to
`[10, 32757]`, and emit a single mouse-absolute frame with payload
`[0, 0, tx_lo, tx_hi, ty_lo, ty_hi]`. -/
def mouse_abs (screen_w screen_h x y : Nat) : List (List Nat) :=
  let tx := clampU16 (absScaleF32 x screen_w) 10 32757
  let ty := clampU16 (absScaleF32 y screen_h) 10 32757
  [send_raw .MouseAbs [0, 0, tx % 256, tx / 256 % 256, ty % 256, ty / 256 % 256] 0]

/-- Modelled from the words of the specification, for the refinement
comparison of the scaling formula: `tx = clamp(round(x/screen_w*32767), 10,
32757)` with rounding to the nearest integer,
`round(a/b) = (2*a + b) / (2*b)`. -/
def absScaleSpecRound (x screen_w : Nat) : Nat :=
  clampU16 ((2 * (x * 32767) + screen_w) / (2 * screen_w)) 10 32757

/-- Keys of `enigo::Key` reachable from `SoftwareDriver::hid_to_enigo`, plus
the modifier keys it presses. -/
inductive EKey where
  | Unicode (c : Char)
  | Return
  | Escape
  | Backspace
  | Tab
  | Space
  | Control
  | Shift
  | Alt
deriving DecidableEq

/-- Press/release direction, `enigo::Direction` as used by the software
driver. -/
inductive Dir where
  | Press
  | Release
deriving DecidableEq

/-- One `enigo.key(key, direction)` call issued by the software driver. -/
structure EnigoKeyCall where
  key : EKey
  dir : Dir
deriving DecidableEq

/-- HID-usage-to-key map `SoftwareDriver::hid_to_enigo` of src/hardware.rs:
letters, digits, the named keys, punctuation, and the three modifiers; every
other keycode maps to `none`. -/
def hid_to_enigo (hid : Nat) : Option EKey :=
  if 0x04 ≤ hid ∧ hid ≤ 0x1D then
    some (.Unicode (Char.ofNat (97 + (hid - 0x04))))
  else if 0x1E ≤ hid ∧ hid ≤ 0x27 then
    some (.Unicode (if hid = 0x27 then '0' else Char.ofNat (49 + (hid - 0x1E))))
  else if hid = 0x28 then some .Return
  else if hid = 0x29 then some .Escape
  else if hid = 0x2A then some .Backspace
  else if hid = 0x2B then some .Tab
  else if hid = 0x2C then some .Space
  else if hid = 0x2D then some (.Unicode '-')
  else if hid = 0x2E then some (.Unicode '=')
  else if hid = 0x2F then some (.Unicode '[')
  else if hid = 0x30 then some (.Unicode ']')
  else if hid = 0x31 then some (.Unicode (Char.ofNat 92))
  else if hid = 0x33 then some (.Unicode ';')
  else if hid = 0x34 then some (.Unicode (Char.ofNat 39))
  else if hid = 0x36 then some (.Unicode ',')
  else if hid = 0x37 then some (.Unicode '.')
  else if hid = 0x38 then some (.Unicode '/')
  else if hid = 0xE0 then some .Control
  else if hid = 0xE1 then some .Shift
  else if hid = 0xE2 then some .Alt
  else none

/-- State of `SoftwareDriver` relevant to key handling: its `last_key`
field. -/
structure SWState where
  last_key : Option EKey
deriving DecidableEq

/-- Model of `SoftwareDriver::key_down(keycode, modifier)`: press Shift when
modifier bit 1 (`0x02`) or bit 5 (`0x20`) is set; if the keycode maps to a
key, press it and record it in `last_key`; an unmapped keycode presses no
key and leaves `last_key` unchanged. Returns the new state and the emitted
enigo calls in order. -/
def sw_key_down (s : SWState) (keycode modifier : Nat) :
    SWState × List EnigoKeyCall :=
  let shiftCalls : List EnigoKeyCall :=
    if modifier.testBit 1 ∨ modifier.testBit 5 then [⟨.Shift, .Press⟩] else []
  match hid_to_enigo keycode with
  | some k => (⟨some k⟩, shiftCalls ++ [⟨k, .Press⟩])
  | none => (s, shiftCalls)

/-- Model of `SoftwareDriver::key_up()`: release the key recorded in
`last_key` (if any), clear `last_key`, then release Shift unconditionally. -/
def sw_key_up (s : SWState) : SWState × List EnigoKeyCall :=
  match s.last_key with
  | some k => (⟨none⟩, [⟨k, .Release⟩, ⟨.Shift, .Release⟩])
  | none => (⟨none⟩, [⟨.Shift, .Release⟩])

/-- A call to the key interface of the software driver. -/
inductive KeyCmd where
  | down (keycode modifier : Nat)
  | up
deriving DecidableEq

/-- Run a sequence of `key_down`/`key_up` calls against the software driver,
returning the final state and the concatenated enigo call trace. -/
def runKeyCmds (s : SWState) : List KeyCmd → SWState × List EnigoKeyCall
  | [] => (s, [])
  | c :: cs =>
    let r := match c with
      | .down k m => sw_key_down s k m
      | .up => sw_key_up s
    let rest := runKeyCmds r.1 cs
    (rest.1, r.2 ++ rest.2)

/-- Modelled from the words of the specification: "the most recently pressed
key" after a sequence of calls — the key pressed by the latest `key_down`
whose keycode has a keymap entry (an unmapped keycode presses nothing), and
none initially or after a `key_up` released it (one key active at a
time). -/
def lastPressedKey (cs : List KeyCmd) : Option EKey :=
  cs.foldl (fun acc c =>
    match c with
    | .down k _ =>
      match hid_to_enigo k with
      | some key => some key
      | none => acc
    | .up => none) none

/-- Rust `enum DriverType` of src/hardware.rs. -/
inductive DriverType where
  | Hardware
  | Software
deriving DecidableEq

/-- Which implementation backs the `Box<dyn InputDriver>` created by
`create_driver`. -/
inductive DriverImpl where
  | hardware
  | software
deriving DecidableEq

/-- Factory `create_driver` of src/hardware.rs, with the serial-port
environment abstracted as `portOpens` (whether
`serialport::new(port, 115200).open()` succeeds): the `Hardware` branch
propagates the open error with `?`, the `Software` branch always
succeeds. -/
def create_driver (t : DriverType) (portOpens : Bool) :
    Except String DriverImpl :=
  match t with
  | .Hardware => if portOpens then .ok .hardware else .error "cannot open port"
  | .Software => .ok .software

/-- Driver-selection `match` of `main` (src/main.rs lines 47–54): on `Err`
it prints a warning and falls back to
`create_driver(DriverType::Software, ...)`. The `.toOption` models the final
`unwrap`: the program aborts (`none`) only if the fallback itself errs. -/
def main_select_driver (t : DriverType) (portOpens : Bool) :
    Option DriverImpl :=
  match create_driver t portOpens with
  | .ok d => some d
  | .error _ => (create_driver .Software portOpens).toOption

/-- Capability set of the `InputDriver` trait: its eight methods. -/
inductive Capability where
  | heartbeat
  | mouseAbs
  | mouseMove
  | mouseDown
  | mouseUp
  | keyDown
  | keyUp
  | switchIdentity
deriving DecidableEq

/-- Methods each driver implementation provides. Both
`impl InputDriver for ...` blocks in src/hardware.rs implement the full
trait. -/
def capabilities : DriverImpl → List Capability
  | _ => [.heartbeat, .mouseAbs, .mouseMove, .mouseDown, .mouseUp, .keyDown,
      .keyUp, .switchIdentity]

/-- Model of `HardwareDriver::send_raw` with the serial I/O made explicit:
the results of the two fallible calls `self.port.write_all(&frame)` and
`self.port.flush()` are bound to `_` and discarded (`let _ = ...`). The
value returned pairs the observable effects — the frame offered to the port
and the settle sleep performed after it — with the `()` that `send_raw`
returns to its caller; its type has no error channel. -/
def send_raw_effects (writeResult flushResult : Except String Unit)
    (et : EventType) (b : List Nat) (delay_ms : Nat) :
    (List Nat × Nat) × Unit :=
  let frame := send_raw et b delay_ms
  let _ := writeResult
  let _ := flushResult
  ((frame, SETTLE_MS), ())

/- ------------------------------------------------------------------ -/
/- Helper lemmas shared by several claims.                            -/
/- ------------------------------------------------------------------ -/

lemma sub_stepOf_natAbs (c : Int) :
    (c - stepOf c).natAbs = c.natAbs - min c.natAbs 127 := by
  unfold stepOf
  split_ifs <;> omega

lemma stepOf_bounds (c : Int) : -127 ≤ stepOf c ∧ stepOf c ≤ 127 := by
  unfold stepOf
  split_ifs <;> omega

lemma measure_decrease (cdx cdy : Int) (h : ¬(cdx = 0 ∧ cdy = 0)) :
    (cdx - stepOf cdx).natAbs + (cdy - stepOf cdy).natAbs <
      cdx.natAbs + cdy.natAbs := by
  have h1 := sub_stepOf_natAbs cdx
  have h2 := sub_stepOf_natAbs cdy
  omega

/-- Bundle of fragmentation-loop invariants, established together by fuel
induction on the termination measure: every step lies in `[-127, 127]`, the
steps sum exactly to the requested displacement on each axis, and the loop
runs exactly `max (chunks dxAbs) (chunks dyAbs)` iterations. -/
lemma mouseMoveSteps_spec (dx dy : Int) :
    (∀ s ∈ mouseMoveSteps dx dy,
        -127 ≤ s.1 ∧ s.1 ≤ 127 ∧ -127 ≤ s.2 ∧ s.2 ≤ 127) ∧
    ((mouseMoveSteps dx dy).map Prod.fst).sum = dx ∧
    ((mouseMoveSteps dx dy).map Prod.snd).sum = dy ∧
    (mouseMoveSteps dx dy).length = max (chunks dx.natAbs) (chunks dy.natAbs) := by
  have H : ∀ (n : Nat) (dx dy : Int), dx.natAbs + dy.natAbs ≤ n →
      (∀ s ∈ mouseMoveSteps dx dy,
          -127 ≤ s.1 ∧ s.1 ≤ 127 ∧ -127 ≤ s.2 ∧ s.2 ≤ 127) ∧
      ((mouseMoveSteps dx dy).map Prod.fst).sum = dx ∧
      ((mouseMoveSteps dx dy).map Prod.snd).sum = dy ∧
      (mouseMoveSteps dx dy).length =
        max (chunks dx.natAbs) (chunks dy.natAbs) := by
    intro n
    induction n with
    | zero =>
      intro dx dy hle
      have hx : dx = 0 := by omega
      have hy : dy = 0 := by omega
      subst hx; subst hy
      rw [mouseMoveSteps]
      simp [chunks]
    | succ n ih =>
      intro dx dy hle
      by_cases h : dx = 0 ∧ dy = 0
      · obtain ⟨hx, hy⟩ := h
        subst hx; subst hy
        rw [mouseMoveSteps]
        simp [chunks]
      · have hdec := measure_decrease dx dy h
        have hrec := ih (dx - stepOf dx) (dy - stepOf dy) (by omega)
        rw [mouseMoveSteps]
        simp only [h, dif_neg, not_false_iff, List.map_cons, List.sum_cons,
          List.length_cons, List.mem_cons]
        obtain ⟨hmem, hsx, hsy, hlen⟩ := hrec
        refine ⟨?_, by omega, by omega, ?_⟩
        · rintro s (rfl | hs)
          · exact ⟨(stepOf_bounds dx).1, (stepOf_bounds dx).2,
              (stepOf_bounds dy).1, (stepOf_bounds dy).2⟩
          · exact hmem s hs
        · rw [hlen]
          have h1 := sub_stepOf_natAbs dx
          have h2 := sub_stepOf_natAbs dy
          simp only [chunks]
          omega
  exact H (dx.natAbs + dy.natAbs) dx dy le_rfl

lemma runKeyCmds_last_key (cs : List KeyCmd) (s : SWState) :
    (runKeyCmds s cs).1.last_key =
      cs.foldl (fun acc c =>
        match c with
        | KeyCmd.down k _ =>
          match hid_to_enigo k with
          | some key => some key
          | none => acc
        | KeyCmd.up => none) s.last_key := by
  induction cs generalizing s with
  | nil => rfl
  | cons c cs ih =>
    cases c with
    | down k m =>
      simp only [runKeyCmds, sw_key_down, List.foldl_cons]
      cases hk : hid_to_enigo k <;> simp [hk, ih]
    | up =>
      simp only [runKeyCmds, sw_key_up, List.foldl_cons]
      cases hk : s.last_key <;> simp [hk, ih]

/- ------------------------------------------------------------------ -/
/- Claim theorems.                                                    -/
/- ------------------------------------------------------------------ -/

/-- C4: every frame written by `HardwareDriver` through `send_raw` is exactly
11 bytes: byte 0 is the head `0xAA`, byte 1 the event type, bytes 2–7 the
6-byte payload, bytes 8–9 the delay as unsigned 16-bit little-endian, byte 10
the tail `0x55`; and after each frame the driver sleeps the fixed 4 ms settle
interval (`SETTLE_MS`). -/
theorem send_raw_frame_layout (et : EventType) (b : List Nat) (d : Nat)
    (hb : b.length = 6) (hd : d < 65536) :
    (send_raw et b d).length = 11 ∧
    (send_raw et b d).getD 0 0 = 0xAA ∧
    (send_raw et b d).getD 1 0 = et.toByte ∧
    ((send_raw et b d).drop 2).take 6 = b ∧
    (send_raw et b d).getD 8 0 + 256 * (send_raw et b d).getD 9 0 = d ∧
    (send_raw et b d).getD 10 0 = 0x55 ∧
    SETTLE_MS = 4 := by
  rcases b with _ | ⟨b0, _ | ⟨b1, _ | ⟨b2, _ | ⟨b3, _ | ⟨b4, _ | ⟨b5, _ | ⟨b6, t⟩⟩⟩⟩⟩⟩⟩ <;>
    simp_all [send_raw, FRAME_HEAD, FRAME_TAIL, SETTLE_MS]
  omega

/-- Witness for C4 at the concrete frame
`send_raw .Keyboard [1,2,3,4,5,6] 0x1234`. -/
theorem send_raw_frame_layout_witness :
    ([1, 2, 3, 4, 5, 6] : List Nat).length = 6 ∧ (0x1234 : Nat) < 65536 ∧
    ((send_raw .Keyboard [1, 2, 3, 4, 5, 6] 0x1234).length = 11 ∧
      (send_raw .Keyboard [1, 2, 3, 4, 5, 6] 0x1234).getD 0 0 = 0xAA ∧
      (send_raw .Keyboard [1, 2, 3, 4, 5, 6] 0x1234).getD 1 0 =
        EventType.toByte .Keyboard ∧
      ((send_raw .Keyboard [1, 2, 3, 4, 5, 6] 0x1234).drop 2).take 6 =
        [1, 2, 3, 4, 5, 6] ∧
      (send_raw .Keyboard [1, 2, 3, 4, 5, 6] 0x1234).getD 8 0 +
        256 * (send_raw .Keyboard [1, 2, 3, 4, 5, 6] 0x1234).getD 9 0 = 0x1234 ∧
      (send_raw .Keyboard [1, 2, 3, 4, 5, 6] 0x1234).getD 10 0 = 0x55 ∧
      SETTLE_MS = 4) :=
  ⟨by decide, by decide,
    send_raw_frame_layout .Keyboard [1, 2, 3, 4, 5, 6] 0x1234 (by decide) (by decide)⟩

/-- C6: `key_down(keycode, modifier)` on `HardwareDriver` sends exactly one
keyboard frame (event type `0x01`) with payload
`[keycode, 0, modifier, 0, 0, 0]` (release flag `0`), and `key_up` sends
exactly one keyboard frame with keycode `0` and release flag `0x80`, payload
`[0, 0x80, 0, 0, 0, 0]`. -/
theorem key_down_key_up_frames (kc m : Nat) (hk : kc < 256) (hm : m < 256) :
    hw_key_down kc m =
      [[0xAA, 0x01, kc, 0x00, m, 0, 0, 0, 0, 0, 0x55]] ∧
    hw_key_up = [[0xAA, 0x01, 0, 0x80, 0, 0, 0, 0, 0, 0, 0x55]] := by
  constructor
  · simp [hw_key_down, send_raw, EventType.toByte, FRAME_HEAD, FRAME_TAIL,
      Nat.mod_eq_of_lt hk, Nat.mod_eq_of_lt hm]
  · rfl

/-- Witness for C6 at keycode `0x04` (HID letter a), modifier `0x02` (left
shift). -/
theorem key_down_key_up_frames_witness :
    (0x04 : Nat) < 256 ∧ (0x02 : Nat) < 256 ∧
    (hw_key_down 0x04 0x02 =
        [[0xAA, 0x01, 0x04, 0x00, 0x02, 0, 0, 0, 0, 0, 0x55]] ∧
      hw_key_up = [[0xAA, 0x01, 0, 0x80, 0, 0, 0, 0, 0, 0, 0x55]]) :=
  ⟨by decide, by decide, key_down_key_up_frames 0x04 0x02 (by decide) (by decide)⟩

/-- C2: for every point `(x, y)` with `x ≤ screen_w`, `y ≤ screen_h` and
positive screen dimensions, the scaled coordinates `tx`, `ty` of `mouse_abs`
both lie within `[10, 32757]` — the clamp holds at both boundaries,
including `x = 0` and `x = screen_w`. (The bound holds for every possible
pre-clamp value, so it does not depend on the `f32` model inside
`absScale`.) -/
theorem mouse_abs_in_range (w h x y : Nat) (_hw : 0 < w) (_hh : 0 < h)
    (_hx : x ≤ w) (_hy : y ≤ h) :
    10 ≤ clampU16 (absScale x w) 10 32757 ∧
    clampU16 (absScale x w) 10 32757 ≤ 32757 ∧
    10 ≤ clampU16 (absScale y h) 10 32757 ∧
    clampU16 (absScale y h) 10 32757 ≤ 32757 := by
  unfold clampU16
  omega

/-- Witness for C2 at the boundary point `(x, y) = (0, 1080)` on a
`1920 × 1080` screen: `tx` clamps up to `10`, `ty` clamps down to `32757`. -/
theorem mouse_abs_in_range_witness :
    (0 < 1920 ∧ 0 < 1080 ∧ 0 ≤ 1920 ∧ 1080 ≤ 1080) ∧
    (10 ≤ clampU16 (absScale 0 1920) 10 32757 ∧
      clampU16 (absScale 0 1920) 10 32757 ≤ 32757 ∧
      10 ≤ clampU16 (absScale 1080 1080) 10 32757 ∧
      clampU16 (absScale 1080 1080) 10 32757 ≤ 32757) :=
  ⟨by decide,
    mouse_abs_in_range 1920 1080 0 1080 (by decide) (by decide) (by decide)
      (by decide)⟩

set_option maxRecDepth 16000 in
/-- C3 counterexample: at `x = y = 1` on a `64 × 64` screen the claimed
round-to-nearest formula disagrees with the code. The `f32` computation is
exact there (`1/64` and `511.984375` both have 24-bit significands), so the
`as u16` cast truncates `1/64 * 32767 = 511.984375` to `511`, while the
claimed `round(...)` gives `512`; the emitted frame therefore differs from
the one the claimed formula prescribes. -/
theorem mouse_abs_round_cex :
    clampU16 (absScaleF32 1 64) 10 32757 = 511 ∧
    absScaleSpecRound 1 64 = 512 ∧
    mouse_abs 64 64 1 1 ≠
      [send_raw .MouseAbs
        [0, 0, absScaleSpecRound 1 64 % 256, absScaleSpecRound 1 64 / 256 % 256,
          absScaleSpecRound 1 64 % 256, absScaleSpecRound 1 64 / 256 % 256] 0] := by
  refine ⟨by decide, by decide, ?_⟩
  decide

set_option maxRecDepth 16000 in
/-- C3 amended: for every in-screen `(x, y)` (positive screen dimensions,
`x ≤ screen_w`, `y ≤ screen_h`), `mouse_abs` emits one single mouse-absolute
frame encoding payload bytes 2–3 (frame bytes 4–5) as little-endian `u16`
`tx` and payload bytes 4–5 (frame bytes 6–7) as little-endian `u16` `ty`,
where `tx = clamp(t, 10, 32757)` and `t` is the result of the program's
computation `((x as f32 / screen_w as f32) * 32767.0) as u16` — IEEE-754
binary32 round-to-nearest-even division and multiplication followed by a
truncating cast (`absScaleF32`), not `round(x/screen_w*32767)` in exact
arithmetic — and `ty` likewise from `y` and `screen_h`. The rounding must be
modelled at `f32` precision: at `y = 977` on the hard-coded 1080-high screen
the `f32` computation yields `29642` where exact truncation gives `29641`. -/
theorem mouse_abs_le_encoding (w h x y : Nat) (_hw : 0 < w) (_hh : 0 < h)
    (_hx : x ≤ w) (_hy : y ≤ h) :
    (mouse_abs w h x y).length = 1 ∧
    ((mouse_abs w h x y).getD 0 []).getD 1 0 = EventType.toByte .MouseAbs ∧
    ((mouse_abs w h x y).getD 0 []).getD 4 0 +
      256 * ((mouse_abs w h x y).getD 0 []).getD 5 0 =
      clampU16 (absScaleF32 x w) 10 32757 ∧
    ((mouse_abs w h x y).getD 0 []).getD 6 0 +
      256 * ((mouse_abs w h x y).getD 0 []).getD 7 0 =
      clampU16 (absScaleF32 y h) 10 32757 ∧
    absScaleF32 977 1080 = 29642 ∧
    977 * 32767 / 1080 = 29641 := by
  have htx : clampU16 (absScaleF32 x w) 10 32757 ≤ 32757 := by
    unfold clampU16; omega
  have hty : clampU16 (absScaleF32 y h) 10 32757 ≤ 32757 := by
    unfold clampU16; omega
  refine ⟨rfl, rfl, ?_, ?_, by decide, by decide⟩ <;>
    simp only [mouse_abs, send_raw, List.getD, List.append_assoc] <;>
    simp <;> omega

set_option maxRecDepth 16000 in
/-- Witness for C3 (amended) at `(x, y) = (977, 977)` on the hard-coded
`1920 × 1080` screen of src/main.rs. -/
theorem mouse_abs_le_encoding_witness :
    (0 < 1920 ∧ 0 < 1080 ∧ 977 ≤ 1920 ∧ 977 ≤ 1080) ∧
    ((mouse_abs 1920 1080 977 977).length = 1 ∧
      ((mouse_abs 1920 1080 977 977).getD 0 []).getD 1 0 =
        EventType.toByte .MouseAbs ∧
      ((mouse_abs 1920 1080 977 977).getD 0 []).getD 4 0 +
        256 * ((mouse_abs 1920 1080 977 977).getD 0 []).getD 5 0 =
        clampU16 (absScaleF32 977 1920) 10 32757 ∧
      ((mouse_abs 1920 1080 977 977).getD 0 []).getD 6 0 +
        256 * ((mouse_abs 1920 1080 977 977).getD 0 []).getD 7 0 =
        clampU16 (absScaleF32 977 1080) 10 32757 ∧
      absScaleF32 977 1080 = 29642 ∧
      977 * 32767 / 1080 = 29641) :=
  ⟨by decide,
    mouse_abs_le_encoding 1920 1080 977 977 (by decide) (by decide) (by decide)
      (by decide)⟩

/-- C1: for every displacement `(dx, dy)` with `|dx| > 127` or `|dy| > 127`,
the fragmentation loop of `mouse_move` emits per-frame steps that each lie in
`[-127, 127]`, and the steps, applied in emission order, sum exactly to
`(dx, dy)`: no loss and no overshoot. -/
theorem mouse_move_fragmentation_exact (dx dy : Int)
    (_h : 127 < dx.natAbs ∨ 127 < dy.natAbs) :
    (∀ s ∈ mouseMoveSteps dx dy,
        -127 ≤ s.1 ∧ s.1 ≤ 127 ∧ -127 ≤ s.2 ∧ s.2 ≤ 127) ∧
    ((mouseMoveSteps dx dy).map Prod.fst).sum = dx ∧
    ((mouseMoveSteps dx dy).map Prod.snd).sum = dy := by
  obtain ⟨hmem, hsx, hsy, _⟩ := mouseMoveSteps_spec dx dy
  exact ⟨hmem, hsx, hsy⟩

/-- Witness for C1 at `(dx, dy) = (300, 5)`. -/
theorem mouse_move_fragmentation_exact_witness :
    (127 < (300 : Int).natAbs ∨ 127 < (5 : Int).natAbs) ∧
    ((∀ s ∈ mouseMoveSteps 300 5,
        -127 ≤ s.1 ∧ s.1 ≤ 127 ∧ -127 ≤ s.2 ∧ s.2 ≤ 127) ∧
      ((mouseMoveSteps 300 5).map Prod.fst).sum = 300 ∧
      ((mouseMoveSteps 300 5).map Prod.snd).sum = 5) :=
  ⟨Or.inl (by decide),
    mouse_move_fragmentation_exact 300 5 (Or.inl (by decide))⟩

/-- C10: the fragmentation loop of `mouse_move` terminates on every input:
whenever `(cur_dx, cur_dy)` is not `(0, 0)`, one iteration strictly decreases
`|cur_dx| + |cur_dy|`; the loop emits exactly
`max ⌈|dx|/127⌉ ⌈|dy|/127⌉` motion frames; and `mouse_move 0 0 0` emits no
frames at all. -/
theorem mouse_move_terminates_frame_count (dx dy : Int) :
    (¬(dx = 0 ∧ dy = 0) →
      (dx - stepOf dx).natAbs + (dy - stepOf dy).natAbs <
        dx.natAbs + dy.natAbs) ∧
    (mouseMoveSteps dx dy).length = max (chunks dx.natAbs) (chunks dy.natAbs) ∧
    mouse_move 0 0 0 = [] := by
  refine ⟨measure_decrease dx dy, (mouseMoveSteps_spec dx dy).2.2.2, ?_⟩
  simp [mouse_move, mouseMoveSteps]

/-- Witness for C10 at `(dx, dy) = (300, 5)`: three motion frames, and the
first iteration shrinks the measure from `305` to `178`. -/
theorem mouse_move_terminates_frame_count_witness :
    ((¬((300 : Int) = 0 ∧ (5 : Int) = 0)) ∧
      ((300 : Int) - stepOf 300).natAbs + ((5 : Int) - stepOf 5).natAbs <
        (300 : Int).natAbs + (5 : Int).natAbs) ∧
    (mouseMoveSteps 300 5).length =
      max (chunks (300 : Int).natAbs) (chunks (5 : Int).natAbs) ∧
    mouse_move 0 0 0 = [] := by
  obtain ⟨h1, h2, h3⟩ := mouse_move_terminates_frame_count 300 5
  exact ⟨⟨by decide, h1 (by decide)⟩, h2, h3⟩

/-- C5 counterexample: for `mouse_move(5, 0, 1)` the claim fails. The claim
says the wheel value of the call is carried in payload byte 1 of the motion
frame whose payload bytes 2–5 carry the step deltas; but the code emits the
wheel value in a separate leading frame with zero deltas, and the motion
frame that carries the step `dx = 5` (frame 1, payload byte 2 = 5, at frame
byte 4) has payload byte 1 (frame byte 3) equal to `0`, not
`wheel as u8 = 1`. -/
theorem mouse_move_wheel_separate_frame_cex :
    (mouse_move 5 0 1).length = 2 ∧
    ((mouse_move 5 0 1).getD 1 []).getD 4 0 = 5 ∧
    ((mouse_move 5 0 1).getD 1 []).getD 3 0 = 0 ∧
    i8u8 1 = 1 ∧
    ((mouse_move 5 0 1).getD 1 []).getD 3 0 ≠ i8u8 1 := by
  constructor
  · simp [mouse_move, mouseMoveSteps, stepOf]
  refine ⟨?_, ?_, by decide, ?_⟩ <;>
    simp [mouse_move, mouseMoveSteps, stepOf, send_raw, i16le, i8u8,
      FRAME_HEAD, EventType.toByte] <;> decide

/-- C5 amended: when `wheel ≠ 0`, `mouse_move` first emits one separate
mouse-relative frame with payload `[0, wheel as u8, 0, 0, 0, 0]` (zero
deltas); every motion frame has payload `[0, 0, dx_lo, dx_hi, dy_lo, dy_hi]`
with byte 1 equal to `0` (not the wheel value), bytes 2–5 the step deltas of
that frame as little-endian signed 16-bit values, and each step bounded to
`±127`. -/
theorem mouse_move_wheel_and_motion_frames (dx dy wheel : Int) :
    (wheel ≠ 0 →
      (mouse_move dx dy wheel).getD 0 [] =
        send_raw .MouseRel [0, i8u8 wheel, 0, 0, 0, 0] 0) ∧
    (mouse_move dx dy wheel).drop (if wheel ≠ 0 then 1 else 0) =
      (mouseMoveSteps dx dy).map (fun s =>
        send_raw .MouseRel ([0, 0] ++ i16le s.1 ++ i16le s.2) 0) ∧
    (∀ s ∈ mouseMoveSteps dx dy,
      -127 ≤ s.1 ∧ s.1 ≤ 127 ∧ -127 ≤ s.2 ∧ s.2 ≤ 127) := by
  refine ⟨?_, ?_, (mouseMoveSteps_spec dx dy).1⟩
  · intro hw
    simp [mouse_move, hw]
  · by_cases hw : wheel = 0 <;> simp [mouse_move, hw]

/-- Witness for C5 (amended) at `mouse_move 5 0 1`. -/
theorem mouse_move_wheel_and_motion_frames_witness :
    ((1 : Int) ≠ 0 ∧
      (mouse_move 5 0 1).getD 0 [] =
        send_raw .MouseRel [0, i8u8 1, 0, 0, 0, 0] 0) ∧
    (mouse_move 5 0 1).drop (if (1 : Int) ≠ 0 then 1 else 0) =
      (mouseMoveSteps 5 0).map (fun s =>
        send_raw .MouseRel ([0, 0] ++ i16le s.1 ++ i16le s.2) 0) ∧
    (∀ s ∈ mouseMoveSteps 5 0,
      -127 ≤ s.1 ∧ s.1 ≤ 127 ∧ -127 ≤ s.2 ∧ s.2 ≤ 127) := by
  obtain ⟨h1, h2, h3⟩ := mouse_move_wheel_and_motion_frames 5 0 1
  exact ⟨⟨by decide, h1 (by decide)⟩, h2, h3⟩

/-- C7: in the software injection driver, for every sequence of
`key_down`/`key_up` calls — including calls whose keycode has no keymap
entry — the `last_key` record of the driver equals the most recently pressed
key, and a `key_up` issued after the sequence releases exactly that key
(nothing when no key is currently pressed) and additionally releases Shift
unconditionally. -/
theorem sw_key_up_releases_last_pressed (cs : List KeyCmd) :
    (runKeyCmds ⟨none⟩ cs).1.last_key = lastPressedKey cs ∧
    (sw_key_up (runKeyCmds ⟨none⟩ cs).1).2 =
      (match lastPressedKey cs with
        | some k => [⟨k, .Release⟩, ⟨.Shift, .Release⟩]
        | none => [⟨.Shift, .Release⟩]) := by
  have h1 : (runKeyCmds ⟨none⟩ cs).1.last_key = lastPressedKey cs := by
    rw [runKeyCmds_last_key]
    rfl
  refine ⟨h1, ?_⟩
  unfold sw_key_up
  rw [h1]
  cases lastPressedKey cs <;> rfl

/-- C8: when hardware-driver creation fails because the serial port cannot
be opened, the program does not abort: driver selection still yields a
driver — the software injection one — and its capability set equals the
capability set of the hardware driver. -/
theorem driver_fallback_to_software (portOpens : Bool)
    (h : portOpens = false) :
    main_select_driver .Hardware portOpens = some .software ∧
    (main_select_driver .Hardware portOpens).isSome = true ∧
    capabilities .software = capabilities .hardware := by
  subst h
  exact ⟨rfl, rfl, rfl⟩

/-- Witness for C8 with the port failing to open. -/
theorem driver_fallback_to_software_witness :
    false = false ∧
    (main_select_driver .Hardware false = some .software ∧
      (main_select_driver .Hardware false).isSome = true ∧
      capabilities .software = capabilities .hardware) :=
  ⟨rfl, driver_fallback_to_software false rfl⟩

/-- C9: a write or flush I/O error inside `send_raw` is swallowed: the
outcome of the call — the frame bytes, the 4 ms settle sleep, and the `()`
returned to the caller — is identical whatever the two I/O results are, so
every `InputDriver` method on `HardwareDriver` returns normally with no
error indication, and the post-frame settle sleep still occurs. -/
theorem send_raw_swallows_write_errors
    (writeResult flushResult : Except String Unit) (et : EventType)
    (b : List Nat) (d : Nat) :
    send_raw_effects writeResult flushResult et b d =
      send_raw_effects (.ok ()) (.ok ()) et b d ∧
    (send_raw_effects writeResult flushResult et b d).1.2 = SETTLE_MS ∧
    SETTLE_MS = 4 ∧
    (send_raw_effects writeResult flushResult et b d).2 = () :=
  ⟨rfl, rfl, rfl, rfl⟩

end NZM
